import Mathlib

/-!
Verification development for the azera backend core: the hybrid memory
retrieval and fusion engine (src/backend/src/handlers.rs, handle_chat_stream
merge loop and the meili_search_* helpers), the embedding cache
(src/backend/src/cache.rs, CacheService), and the dreaming step of the
background agent tick loop (src/backend/src/systems.rs, dreaming_system).

The Rust source is shallowly embedded: stateful loops become folds over an
explicit state, machine floats appearing only as compared/added scalars are
modelled as rationals, timestamps as integer seconds, byte strings as lists
of naturals.  A Rust byte-slice expression that can panic on a non-boundary
index is modelled with Option, where none models the panic.
-/

namespace Azera

/-! String and UTF-8 byte helpers.

takeChars models content.chars().take(n).collect::<String>().
utf8Len models str::len (the length in UTF-8 bytes).
byteTrunc models the slice expression content[..content.len().min(cap)]:
slicing a Rust str at a byte index that is not a char boundary panics,
which is modelled as none. -/

def takeChars (n : Nat) (s : String) : String := String.mk (s.data.take n)

def utf8Len (s : String) : Nat := (s.data.map Char.utf8Size).sum

def takeBytesAux : List Char → Nat → Option (List Char)
  | _, 0 => some []
  | [], _ + 1 => none
  | c :: cs, n + 1 =>
    if c.utf8Size ≤ n + 1 then (takeBytesAux cs (n + 1 - c.utf8Size)).map (c :: ·)
    else none

def byteTrunc (cap : Nat) (s : String) : Option String :=
  (takeBytesAux s.data (min (utf8Len s) cap)).map String.mk

/-! The hybrid retrieval merge (handlers.rs, handle_chat_stream lines 283-339).

A semantic search hit (vector.rs SearchResult) carries an f32 score and a
JSON payload; the merge loop reads payload["timestamp"], payload["role"] and
payload["content"] as strings.  Each field is modelled as Option String,
none covering both a missing key and a non-string value.  The score is
modelled as a rational. -/

structure SemanticResult where
  score : ℚ
  payload_timestamp : Option String
  payload_role : Option String
  payload_content : Option String
deriving DecidableEq

/-- A hit returned by meili_search_memories: the merge loop reads the JSON
fields content, memory_type and title. -/
structure MemoryHit where
  content : Option String
  memory_type : Option String
  title : Option String
deriving DecidableEq

/-- A hit returned by meili_search_chats_for_rag: the merge loop reads the
JSON fields id, messages_text and title. -/
structure ChatHit where
  id : Option String
  messages_text : Option String
  title : Option String
deriving DecidableEq

/-- The mutable state of the merge loop: context_parts accumulates the
formatted entries, seen_content models the HashSet of dedup keys (insertion
order kept, membership is what matters). -/
structure MergeState where
  parts : List String
  seen : List String
deriving DecidableEq

/-- Models HashSet::insert on seen_content: true iff the key was newly
inserted. -/
def seenInsert (key : String) (seen : List String) : Bool × List String :=
  if key ∈ seen then (false, seen) else (true, seen ++ [key])

/-- The echo-avoidance test of the semantic loop: payload["timestamp"] as a
string, parsed as RFC3339; when both succeed the hit is recent iff
(now - mem_time).num_seconds() < 60.  The RFC3339 parser is an external
library (chrono), passed in as a function to integer seconds. -/
def semanticRecent (parse : String → Option Int) (now : Int) (r : SemanticResult) : Bool :=
  match r.payload_timestamp with
  | some ts =>
    match parse ts with
    | some memTime => decide (now - memTime < 60)
    | none => false
  | none => false

/-- One iteration of the semantic-results merge loop (handlers.rs 289-311):
score gate (score < 0.45 skips), echo gate, then dedup by the first 100
chars of content and push of the formatted, byte-truncated entry. -/
def semanticStep (parse : String → Option Int) (now : Int)
    (st : MergeState) (r : SemanticResult) : Option MergeState :=
  if r.score < mkRat 45 100 then some st
  else if semanticRecent parse now r then some st
  else
    let role := r.payload_role.getD "unknown"
    match r.payload_content with
    | none => some st
    | some content =>
      let key := takeChars 100 content
      if key ∈ st.seen then some st
      else
        (byteTrunc 400 content).map fun t =>
          ⟨st.parts ++ ["[semantic:" ++ role ++ "] " ++ t], st.seen ++ [key]⟩

/-- One iteration of the lexical-memories merge loop (handlers.rs 314-324):
no score or recency gate, dedup by the first 100 chars of content, push of
the formatted entry truncated to 500 bytes. -/
def lexStep (st : MergeState) (hit : MemoryHit) : Option MergeState :=
  match hit.content with
  | none => some st
  | some content =>
    let key := takeChars 100 content
    if key ∈ st.seen then some st
    else
      (byteTrunc 500 content).map fun t =>
        ⟨st.parts ++ ["[" ++ hit.memory_type.getD "unknown" ++ ":" ++ hit.title.getD "" ++ "] " ++ t],
         st.seen ++ [key]⟩

/-- One iteration of the lexical-chats merge loop (handlers.rs 327-339):
skip the current chat id, dedup by the first 100 chars of messages_text,
push of the formatted entry truncated to 300 bytes. -/
def chatStep (chat_id : String) (st : MergeState) (hit : ChatHit) : Option MergeState :=
  if hit.id = some chat_id then some st
  else
    match hit.messages_text with
    | none => some st
    | some text =>
      let key := takeChars 100 text
      if key ∈ st.seen then some st
      else
        (byteTrunc 300 text).map fun t =>
          ⟨st.parts ++ ["[chat:" ++ hit.title.getD "past chat" ++ "] " ++ t], st.seen ++ [key]⟩

/-- The full merge: semantic results first, then lexical memory hits, then
lexical chat hits, all threading the shared seen_content set.  The result is
none when one of the byte-slice truncations panics. -/
def hybridMerge (parse : String → Option Int) (now : Int) (chat_id : String)
    (sem : List SemanticResult) (lex : List MemoryHit) (chats : List ChatHit) :
    Option MergeState := do
  let st ← sem.foldlM (semanticStep parse now) ⟨[], []⟩
  let st ← lex.foldlM lexStep st
  chats.foldlM (chatStep chat_id) st

/-! Leg recovery (handlers.rs 262-281 and the meili_search_* helpers).

The semantic leg is a fallible vector-store call whose error is caught in
the handler (Err is logged and replaced by Vec::new()).  The two lexical
helpers catch failures internally: an HTTP send error yields Vec::new(),
and a response whose JSON body does not parse, or lacks a hits array,
yields the empty list via unwrap_or_default.  A response is modelled as
Except String (Option (List _)): error is a failed send, ok none a body
with no usable hits array, ok (some hits) a good response. -/

def semanticLegResults (resp : Except String (List SemanticResult)) : List SemanticResult :=
  match resp with
  | .ok results => results
  | .error _ => []

def meili_search_memories (resp : Except String (Option (List MemoryHit))) : List MemoryHit :=
  match resp with
  | .ok (some hits) => hits
  | .ok none => []
  | .error _ => []

def meili_search_chats_for_rag (resp : Except String (Option (List ChatHit))) : List ChatHit :=
  match resp with
  | .ok (some hits) => hits
  | .ok none => []
  | .error _ => []

/-- The memory_context string built from context_parts (handlers.rs 340-352):
empty when no parts were collected, otherwise a header plus the enumerated
parts joined by newlines. -/
def memoryContext (parts : List String) : String :=
  if parts.isEmpty then ""
  else
    "\n\n[Relevant memories from past conversations:]\n" ++
      String.intercalate "\n" (parts.enum.map fun p => Nat.repr (p.1 + 1) ++ ". " ++ p.2)

/-- The whole retrieval pipeline from the three raw leg responses to the
memory_context string: recover each leg, merge, format.  The only none case
is the byte-slice panic inside the merge; no leg error ever reaches the
caller. -/
def hybridRetrieve (parse : String → Option Int) (now : Int) (chat_id : String)
    (semResp : Except String (List SemanticResult))
    (memResp : Except String (Option (List MemoryHit)))
    (chatResp : Except String (Option (List ChatHit))) : Option String :=
  (hybridMerge parse now chat_id (semanticLegResults semResp)
      (meili_search_memories memResp) (meili_search_chats_for_rag chatResp)).map
    fun st => memoryContext st.parts

/-! The dreaming step of the tick loop (systems.rs, dreaming_system).

Time is modelled in integer seconds.  chrono num_seconds and num_hours
truncate toward zero, so num_hours is Int.tdiv by 3600.  The source casts
the idle duration to u64 with as, which wraps negative values; toU64 models
that cast. -/

def toU64 (i : Int) : Nat := (i % (2 ^ 64 : Int)).toNat

/-- Truncating min on rationals, modelling f32 min at rational precision. -/
def ratMin (a b : ℚ) : ℚ := if a ≤ b then a else b

/-- The agent mental state (components.rs MentalState), floats as rationals
and timestamps as integer seconds. -/
structure MentalState where
  mood : ℚ
  energy : ℚ
  is_dreaming : Bool
  last_active : Int
  last_dream : Option Int
  focus_level : ℚ
deriving DecidableEq

/-- The cooldown test of dreaming_system (systems.rs 163-171): with a prior
last_dream, the whole hours since it must reach the configured cooldown;
with none the agent has never dreamed and the cooldown is elapsed. -/
def dreamCooldownOk (now : Int) (cooldown_hours : Int) (last_dream : Option Int) : Bool :=
  match last_dream with
  | some ld => decide (Int.tdiv (now - ld) 3600 ≥ cooldown_hours)
  | none => true

/-- The activation guard of dreaming_system (systems.rs 172-175):
idle time (as u64) strictly above the threshold, not already dreaming, and
cooldown elapsed. -/
def dreamGuard (now : Int) (threshold : Nat) (cooldown_hours : Int) (st : MentalState) : Bool :=
  decide (toU64 (now - st.last_active) > threshold) && !st.is_dreaming &&
    dreamCooldownOk now cooldown_hours st.last_dream

/-- The dreaming step as a transition on MentalState (systems.rs 150-298).
On activation the step sets is_dreaming and boosts mood, runs dream
generation (gen, whose success or failure affects only logging and storage
side effects), and unconditionally ends by clearing is_dreaming, stamping
last_dream and resetting last_active with the completion time tEnd.
Without activation the state is untouched. -/
def dreaming_system (now tEnd : Int) (threshold : Nat) (cooldown_hours : Int)
    (gen : Except String String) (st : MentalState) : MentalState :=
  if dreamGuard now threshold cooldown_hours st then
    let st1 := { st with is_dreaming := true, mood := ratMin (st.mood + mkRat 1 10) 1 }
    match gen with
    | .ok _ => { st1 with is_dreaming := false, last_dream := some tEnd, last_active := tEnd }
    | .error _ => { st1 with is_dreaming := false, last_dream := some tEnd, last_active := tEnd }
  else st

/-! UTF-8 encoding of a string to its byte sequence, as Rust str::as_bytes
observes it.  Bytes are naturals below 256. -/

def charUtf8Bytes (c : Char) : List Nat :=
  let n := c.toNat
  if n < 0x80 then [n]
  else if n < 0x800 then
    [0xC0 ||| (n >>> 6), 0x80 ||| (n &&& 0x3F)]
  else if n < 0x10000 then
    [0xE0 ||| (n >>> 12), 0x80 ||| ((n >>> 6) &&& 0x3F), 0x80 ||| (n &&& 0x3F)]
  else
    [0xF0 ||| (n >>> 18), 0x80 ||| ((n >>> 12) &&& 0x3F),
     0x80 ||| ((n >>> 6) &&& 0x3F), 0x80 ||| (n &&& 0x3F)]

def utf8Bytes (s : String) : List Nat := s.data.flatMap charUtf8Bytes

/-! SHA-256 (the sha2 crate used by cache.rs), on lists of byte values,
32-bit words as naturals reduced mod 2^32. -/

def w32 : Nat := 2 ^ 32

def rotr32 (n w : Nat) : Nat := ((w >>> n) ||| (w <<< (32 - n))) % w32

def shaCh (x y z : Nat) : Nat := (x &&& y) ^^^ ((x ^^^ 0xFFFFFFFF) &&& z)

def shaMaj (x y z : Nat) : Nat := (x &&& y) ^^^ (x &&& z) ^^^ (y &&& z)

def bigSigma0 (x : Nat) : Nat := rotr32 2 x ^^^ rotr32 13 x ^^^ rotr32 22 x

def bigSigma1 (x : Nat) : Nat := rotr32 6 x ^^^ rotr32 11 x ^^^ rotr32 25 x

def smallSigma0 (x : Nat) : Nat := rotr32 7 x ^^^ rotr32 18 x ^^^ (x >>> 3)

def smallSigma1 (x : Nat) : Nat := rotr32 17 x ^^^ rotr32 19 x ^^^ (x >>> 10)

def shaK : List Nat :=
  [
   1116352408, 1899447441, 3049323471, 3921009573, 961987163,
   1508970993, 2453635748, 2870763221, 3624381080, 310598401,
   607225278, 1426881987, 1925078388, 2162078206, 2614888103,
   3248222580, 3835390401, 4022224774, 264347078, 604807628,
   770255983, 1249150122, 1555081692, 1996064986, 2554220882,
   2821834349, 2952996808, 3210313671, 3336571891, 3584528711,
   113926993, 338241895, 666307205, 773529912, 1294757372,
   1396182291, 1695183700, 1986661051, 2177026350, 2456956037,
   2730485921, 2820302411, 3259730800, 3345764771, 3516065817,
   3600352804, 4094571909, 275423344, 430227734, 506948616,
   659060556, 883997877, 958139571, 1322822218, 1537002063,
   1747873779, 1955562222, 2024104815, 2227730452, 2361852424,
   2428436474, 2756734187, 3204031479, 3329325298]

/-- The eight 32-bit words of a SHA-256 chaining state. -/
structure SHAState where
  (a b c d e f g h : Nat)
deriving DecidableEq

def shaInit : SHAState :=
  ⟨1779033703, 3144134277, 1013904242, 2773480762, 1359893119, 2600822924, 528734635, 1541459225⟩

/-- Pad a message to a whole number of 64-byte blocks: append 0x80, zeros,
and the bit length as eight big-endian bytes. -/
def shaPad (msg : List Nat) : List Nat :=
  let len := msg.length
  let zeros := (119 - len % 64) % 64
  let bitLen := 8 * len
  msg ++ [0x80] ++ List.replicate zeros 0 ++
    [bitLen >>> 56 % 256, bitLen >>> 48 % 256, bitLen >>> 40 % 256, bitLen >>> 32 % 256,
     bitLen >>> 24 % 256, bitLen >>> 16 % 256, bitLen >>> 8 % 256, bitLen % 256]

/-- Split a list into chunks of n elements, keeping only complete chunks
(this is also the model of slice::chunks_exact).  Structural recursion on a
fuel argument so that the definition evaluates inside the kernel. -/
def chunksGo (n : Nat) : Nat → List α → List (List α)
  | 0, _ => []
  | fuel + 1, l =>
    if n = 0 ∨ l.length < n then [] else l.take n :: chunksGo n fuel (l.drop n)

def chunksExact (n : Nat) (l : List α) : List (List α) := chunksGo n l.length l

def beWord : List Nat → Nat
  | [a, b, c, d] => a * 2 ^ 24 + b * 2 ^ 16 + c * 2 ^ 8 + d
  | _ => 0

/-- Extend the 16 block words to the 64-entry message schedule. -/
def shaExtend : List Nat → Nat → List Nat
  | ws, 0 => ws
  | ws, n + 1 =>
    let i := ws.length
    let w := (smallSigma1 (ws.getD (i - 2) 0) + ws.getD (i - 7) 0 +
              smallSigma0 (ws.getD (i - 15) 0) + ws.getD (i - 16) 0) % w32
    shaExtend (ws ++ [w]) n

def shaRound (st : SHAState) (wk : Nat × Nat) : SHAState :=
  let t1 := (st.h + bigSigma1 st.e + shaCh st.e st.f st.g + wk.2 + wk.1) % w32
  let t2 := (bigSigma0 st.a + shaMaj st.a st.b st.c) % w32
  ⟨(t1 + t2) % w32, st.a, st.b, st.c, (st.d + t1) % w32, st.e, st.f, st.g⟩

def shaBlock (st : SHAState) (block : List Nat) : SHAState :=
  let ws := shaExtend ((chunksExact 4 block).map beWord) 48
  let r := (ws.zip shaK).foldl shaRound st
  ⟨(st.a + r.a) % w32, (st.b + r.b) % w32, (st.c + r.c) % w32, (st.d + r.d) % w32,
   (st.e + r.e) % w32, (st.f + r.f) % w32, (st.g + r.g) % w32, (st.h + r.h) % w32⟩

def beBytes (w : Nat) : List Nat :=
  [w >>> 24 % 256, w >>> 16 % 256, w >>> 8 % 256, w % 256]

def shaDigest (st : SHAState) : List Nat :=
  beBytes st.a ++ beBytes st.b ++ beBytes st.c ++ beBytes st.d ++
    beBytes st.e ++ beBytes st.f ++ beBytes st.g ++ beBytes st.h

/-- SHA-256 of a byte list: pad, then compress the 64-byte blocks in order,
then serialize the state big-endian. -/
def sha256 (msg : List Nat) : List Nat :=
  shaDigest ((chunksExact 64 (shaPad msg)).foldl shaBlock shaInit)

/-! Lowercase hex encoding (the hex crate). -/

def hexDigit (n : Nat) : Char :=
  "0123456789abcdef".data.getD n '0'

def hexEncode (bs : List Nat) : String :=
  String.mk (bs.flatMap fun b => [hexDigit (b / 16 % 16), hexDigit (b % 16)])

/-- CacheService::embedding_key (cache.rs 232-237): SHA-256 of the UTF-8
bytes of the text, hex encoded, first 16 hex characters, after the fixed
emb: namespace.  The source takes the first 16 bytes of the hex string;
hex output is ASCII so that equals the first 16 characters. -/
def embedding_key (text : String) : String :=
  "emb:" ++ takeChars 16 (hexEncode (sha256 (utf8Bytes text)))

/-! Standard base64 with padding (base64::engine::general_purpose::STANDARD),
on byte lists. -/

def b64Alphabet : List Char :=
  "ABCDEFGHIJKLMNOPQRSTUVWXYZabcdefghijklmnopqrstuvwxyz0123456789+/".data

def b64Char (n : Nat) : Char := b64Alphabet.getD n 'A'

def b64Index (c : Char) : Option Nat := b64Alphabet.indexOf? c

def b64EncodeList : List Nat → List Char
  | b0 :: b1 :: b2 :: rest =>
    b64Char (b0 / 4) :: b64Char (b0 % 4 * 16 + b1 / 16) ::
      b64Char (b1 % 16 * 4 + b2 / 64) :: b64Char (b2 % 64) :: b64EncodeList rest
  | [b0, b1] =>
    [b64Char (b0 / 4), b64Char (b0 % 4 * 16 + b1 / 16), b64Char (b1 % 16 * 4), '=']
  | [b0] => [b64Char (b0 / 4), b64Char (b0 % 4 * 16), '=', '=']
  | [] => []

def b64DecodeGroup (c0 c1 c2 c3 : Char) : Option (List Nat) :=
  if c2 = '=' ∧ c3 = '=' then do
    let n0 ← b64Index c0
    let n1 ← b64Index c1
    pure [n0 * 4 + n1 / 16]
  else if c3 = '=' then do
    let n0 ← b64Index c0
    let n1 ← b64Index c1
    let n2 ← b64Index c2
    pure [n0 * 4 + n1 / 16, n1 % 16 * 16 + n2 / 4]
  else do
    let n0 ← b64Index c0
    let n1 ← b64Index c1
    let n2 ← b64Index c2
    let n3 ← b64Index c3
    pure [n0 * 4 + n1 / 16, n1 % 16 * 16 + n2 / 4, n2 % 4 * 64 + n3]

def b64DecodeList : List Char → Option (List Nat)
  | c0 :: c1 :: c2 :: c3 :: rest =>
    if rest.isEmpty then b64DecodeGroup c0 c1 c2 c3
    else do
      let n0 ← b64Index c0
      let n1 ← b64Index c1
      let n2 ← b64Index c2
      let n3 ← b64Index c3
      let tail ← b64DecodeList rest
      pure ([n0 * 4 + n1 / 16, n1 % 16 * 16 + n2 / 4, n2 % 4 * 64 + n3] ++ tail)
  | [] => some []
  | _ => none

def b64Encode (bs : List Nat) : String := String.mk (b64EncodeList bs)

def b64Decode (s : String) : Option (List Nat) := b64DecodeList s.data

/-! The embedding cache (cache.rs 240-263).

An f32 vector element is modelled by its 32-bit pattern, a natural below
2^32: f32::to_le_bytes and f32::from_le_bytes are inverse bijections
between f32 values and 4-byte strings, so the byte-level round trip is
exactly the round trip of the bit patterns.  The external key-value store
(Redis SETEX semantics) is an association list of key, value and absolute
expiry time; an entry is readable strictly before its expiry instant. -/

def toLeBytes (x : Nat) : List Nat :=
  [x % 256, x / 256 % 256, x / 65536 % 256, x / 16777216 % 256]

def fromLeBytes : List Nat → Nat
  | [b0, b1, b2, b3] => b0 + 256 * b1 + 65536 * b2 + 16777216 * b3
  | _ => 0

def KVStore : Type := List (String × String × Int)

def kvSet (store : KVStore) (now : Int) (key val : String) (ttl : Int) : KVStore :=
  (key, val, now + ttl) :: store.filter fun e => e.1 ≠ key

def kvGet (store : KVStore) (now : Int) (key : String) : Option String :=
  match store.find? (fun e => e.1 == key) with
  | some (_, v, expiry) => if now < expiry then some v else none
  | none => none

/-- CacheService::cache_embedding (cache.rs 240-248): serialize the vector
as the concatenation of the 4 little-endian bytes of each element, base64
encode, store under the content-hash key with a 7-day (604800 s) TTL. -/
def cache_embedding (store : KVStore) (now : Int) (text : String) (embedding : List Nat) :
    KVStore :=
  kvSet store now (embedding_key text) (b64Encode (embedding.flatMap toLeBytes)) 604800

/-- CacheService::get_cached_embedding (cache.rs 251-263): look up the
content-hash key; on a hit, base64 decode and reassemble f32 values from
exact 4-byte chunks; a miss or a decode failure yields none. -/
def get_cached_embedding (store : KVStore) (now : Int) (text : String) : Option (List Nat) :=
  match kvGet store now (embedding_key text) with
  | some encoded =>
    match b64Decode encoded with
    | some bytes => some ((chunksExact 4 bytes).map fromLeBytes)
    | none => none
  | none => none

/-! Concrete inputs used by scenario theorems and witnesses. -/

/-- An RFC3339 parser stub under which no timestamp string parses. -/
def parseNone : String → Option Int := fun _ => none

/-- Scenario input: semantic match A with score 0.9. -/
def semA : SemanticResult := ⟨mkRat 9 10, none, some "user", some "Alice loves hiking"⟩

/-- Scenario input: semantic match B with score 0.5. -/
def semB : SemanticResult := ⟨mkRat 1 2, none, some "user", some "Bob plays chess"⟩

/-- Scenario input: lexical match C. -/
def lexC : MemoryHit := ⟨some "Carol paints watercolors", some "fact", some "hobby"⟩

/-- Scenario input: a lexical record whose content duplicates A under a
different record id and title. -/
def lexAdup : MemoryHit := ⟨some "Alice loves hiking", some "fact", some "hobby-copy"⟩

/-- A content string of 401 UTF-8 bytes (399 ASCII letters followed by a
two-byte character) whose 400th byte offset falls inside the final
character. -/
def badContent : String := String.mk (List.replicate 399 'a' ++ ['é'])

end Azera

namespace Azera

/-! Claim theorems. -/

set_option maxRecDepth 100000

/-- Claim C1: hybrid-retrieval merge deduplicates by the first 100
characters of content, not record id; semantic results are iterated first,
then lexical memories, then chat transcripts, and on a key collision the
earliest-inserted entry wins while the later one is discarded without
changing the state.  In the concrete scenario, semantic [A(0.9), B(0.5)]
with lexical [C, A-duplicate-by-content] merges to [A, B, C], A kept once
from the semantic leg. -/
theorem C1_merge_dedup_order :
    (hybridMerge parseNone 0 "chat1" [semA, semB] [lexC, lexAdup] [] =
      some ⟨["[semantic:user] Alice loves hiking",
             "[semantic:user] Bob plays chess",
             "[fact:hobby] Carol paints watercolors"],
            ["Alice loves hiking", "Bob plays chess", "Carol paints watercolors"]⟩) ∧
    (∀ parse now st r c, r.payload_content = some c → takeChars 100 c ∈ st.seen →
      semanticStep parse now st r = some st) ∧
    (∀ st hit c, hit.content = some c → takeChars 100 c ∈ st.seen →
      lexStep st hit = some st) ∧
    (∀ cid st hit text, hit.messages_text = some text → takeChars 100 text ∈ st.seen →
      chatStep cid st hit = some st) := by
  refine ⟨by decide, ?_, ?_, ?_⟩
  · intro parse now st r c hc hk
    unfold semanticStep
    split
    · rfl
    · split
      · rfl
      · rw [hc]
        simp [hk]
  · intro st hit c hc hk
    unfold lexStep
    rw [hc]
    simp [hk]
  · intro cid st hit text ht hk
    unfold chatStep
    split
    · rfl
    · rw [ht]
      simp [hk]

/-- Closed instance of C1: a semantic hit whose dedup key is already in
seen_content leaves the merge state unchanged. -/
theorem C1_merge_dedup_order_witness :
    semanticStep parseNone 0 ⟨["[semantic:user] Alice loves hiking"], ["Alice loves hiking"]⟩
      ⟨mkRat 8 10, none, some "user", some "Alice loves hiking"⟩ =
      some ⟨["[semantic:user] Alice loves hiking"], ["Alice loves hiking"]⟩ :=
  C1_merge_dedup_order.2.1 parseNone 0 _ _ "Alice loves hiking" rfl (by decide)

/-- Claim C2: the semantic score gate is boundary inclusive.  A semantic
result with score strictly below 0.45 is dropped without changing the merge
state; one with score exactly 0.45 passing the other gates is appended.
The lexical step consults no score at all: any lexical hit with unseen
content is appended unconditionally. -/
theorem C2_score_gate_boundary :
    (∀ parse now st r, r.score < mkRat 45 100 → semanticStep parse now st r = some st) ∧
    (∀ parse now st r c t, r.score = mkRat 45 100 → semanticRecent parse now r = false →
      r.payload_content = some c → takeChars 100 c ∉ st.seen → byteTrunc 400 c = some t →
      semanticStep parse now st r =
        some ⟨st.parts ++ ["[semantic:" ++ r.payload_role.getD "unknown" ++ "] " ++ t],
              st.seen ++ [takeChars 100 c]⟩) ∧
    (∀ st hit c t, hit.content = some c → takeChars 100 c ∉ st.seen →
      byteTrunc 500 c = some t →
      lexStep st hit =
        some ⟨st.parts ++ ["[" ++ hit.memory_type.getD "unknown" ++ ":" ++
                hit.title.getD "" ++ "] " ++ t],
              st.seen ++ [takeChars 100 c]⟩) := by
  refine ⟨?_, ?_, ?_⟩
  · intro parse now st r hlt
    unfold semanticStep
    rw [if_pos hlt]
  · intro parse now st r c t hsc hrec hc hk htr
    unfold semanticStep
    rw [if_neg (by rw [hsc]; exact lt_irrefl _), hrec, if_neg (by simp), hc]
    simp [hk, htr]
  · intro st hit c t hc hk htr
    unfold lexStep
    rw [hc]
    simp [hk, htr]

/-- Closed instance of C2: a score of exactly 0.45 is kept. -/
theorem C2_score_gate_boundary_witness :
    semanticStep parseNone 0 ⟨[], []⟩ ⟨mkRat 45 100, none, some "user", some "fact one"⟩ =
      some ⟨["[semantic:user] fact one"], ["fact one"]⟩ :=
  C2_score_gate_boundary.2.1 parseNone 0 ⟨[], []⟩ _ "fact one" "fact one"
    rfl rfl rfl (by decide) (by decide)

/-- Claim C3: echo avoidance on the semantic leg.  A semantic result whose
timestamp parses to less than 60 seconds before now is dropped without
changing the merge state, whatever its score; one whose timestamp is 120
seconds in the past with score at least 0.45 (other gates passing) is
appended. -/
theorem C3_echo_avoidance :
    (∀ parse now st r ts mt, r.payload_timestamp = some ts → parse ts = some mt →
      now - mt < 60 → semanticStep parse now st r = some st) ∧
    (∀ parse now st r ts c t, r.payload_timestamp = some ts →
      parse ts = some (now - 120) → mkRat 45 100 ≤ r.score →
      r.payload_content = some c → takeChars 100 c ∉ st.seen → byteTrunc 400 c = some t →
      semanticStep parse now st r =
        some ⟨st.parts ++ ["[semantic:" ++ r.payload_role.getD "unknown" ++ "] " ++ t],
              st.seen ++ [takeChars 100 c]⟩) := by
  constructor
  · intro parse now st r ts mt hts hparse hlt
    unfold semanticStep
    split
    · rfl
    · rw [if_pos]
      unfold semanticRecent
      simpa [hts, hparse] using hlt
  · intro parse now st r ts c t hts hparse hsc hc hk htr
    unfold semanticStep
    rw [if_neg (not_lt.mpr hsc), if_neg, hc]
    · simp [hk, htr]
    · unfold semanticRecent
      simp [hts, hparse]

/-- Closed instance of C3: a hit stamped 120 seconds before now with score
0.9 is appended. -/
theorem C3_echo_avoidance_witness :
    semanticStep (fun _ => some 880) 1000 ⟨[], []⟩
      ⟨mkRat 9 10, some "2024-01-01T00:14:40Z", some "user", some "old fact"⟩ =
      some ⟨["[semantic:user] old fact"], ["old fact"]⟩ :=
  C3_echo_avoidance.2 (fun _ => some 880) 1000 ⟨[], []⟩ _ "2024-01-01T00:14:40Z"
    "old fact" "old fact" rfl rfl (by decide) rfl (by decide) (by decide)

/-- Claim C10: when a semantic result has no timestamp string, or its
timestamp does not parse as RFC3339, the recency check is skipped and the
result is kept subject only to the score gate and deduplication, however
recent it may be (now is arbitrary). -/
theorem C10_unparseable_timestamp_skips_recency :
    ∀ parse now st r c,
      (r.payload_timestamp = none ∨
        ∃ ts, r.payload_timestamp = some ts ∧ parse ts = none) →
      mkRat 45 100 ≤ r.score → r.payload_content = some c →
      semanticStep parse now st r =
        if takeChars 100 c ∈ st.seen then some st
        else
          (byteTrunc 400 c).map fun t =>
            ⟨st.parts ++ ["[semantic:" ++ r.payload_role.getD "unknown" ++ "] " ++ t],
             st.seen ++ [takeChars 100 c]⟩ := by
  intro parse now st r c hts hsc hc
  unfold semanticStep
  rw [if_neg (not_lt.mpr hsc), if_neg, hc]
  · rcases hts with hnone | ⟨ts, hsome, hparse⟩ <;> unfold semanticRecent
    · simp [hnone]
    · simp [hsome, hparse]

/-- Closed instance of C10: a result written this very second but carrying
no timestamp field is kept. -/
theorem C10_unparseable_timestamp_skips_recency_witness :
    semanticStep parseNone 0 ⟨[], []⟩ ⟨mkRat 9 10, none, some "user", some "fresh"⟩ =
      some ⟨["[semantic:user] fresh"], ["fresh"]⟩ := by
  have h := C10_unparseable_timestamp_skips_recency parseNone 0 ⟨[], []⟩
    ⟨mkRat 9 10, none, some "user", some "fresh"⟩ "fresh" (Or.inl rfl) (by decide) rfl
  rw [h]
  decide

/-- Claim C5 names the intended behavior (truncate to a per-source cap in
characters for every content string, multi-byte UTF-8 included); the code
instead slices the UTF-8 byte array at min(len, cap), which measures bytes
and panics when the cap lands inside a multi-byte character.  At the
401-byte content badContent the semantic-leg slice index 400 is not a char
boundary: the truncation (hence the whole request handler) panics, modelled
as none. -/
theorem C5_byte_truncation_panics :
    utf8Len badContent = 401 ∧
    byteTrunc 400 badContent = none ∧
    hybridMerge parseNone 0 "chat1" [⟨mkRat 9 10, none, some "user", some badContent⟩] [] [] =
      none := by
  refine ⟨by decide, by decide, by decide⟩

/-- Claim C4: no leg failure ever reaches the caller of hybrid retrieval.
A failed semantic search is interchangeable with a successful one returning
zero results; a failed lexical request, or one whose body yields no hits
array, returns zero results; and when every leg fails the pipeline still
returns (an empty memory_context string), rather than an error. -/
theorem C4_leg_failure_isolation :
    (∀ parse now cid e mem chat,
      hybridRetrieve parse now cid (.error e) mem chat =
        hybridRetrieve parse now cid (.ok []) mem chat) ∧
    (∀ e, meili_search_memories (.error e) = [] ∧ meili_search_memories (.ok none) = []) ∧
    (∀ e, meili_search_chats_for_rag (.error e) = [] ∧
      meili_search_chats_for_rag (.ok none) = []) ∧
    (∀ parse now cid sem e1 e2,
      hybridRetrieve parse now cid sem (.error e1) (.error e2) =
        hybridRetrieve parse now cid sem (.ok (some [])) (.ok (some []))) ∧
    (∀ parse now cid e1 e2 e3,
      hybridRetrieve parse now cid (.error e1) (.error e2) (.error e3) = some "") := by
  exact ⟨fun _ _ _ _ _ _ => rfl, fun _ => ⟨rfl, rfl⟩, fun _ => ⟨rfl, rfl⟩,
    fun _ _ _ _ _ _ => rfl, fun _ _ _ _ _ _ => rfl⟩

/-- Claim C8: dream cooldown gating, with the cooldown configured to 7
hours, the idle threshold satisfied and is_dreaming false.  A last_dream 6
hours before now blocks activation and leaves the state untouched; a
last_dream 8 hours before now activates (last_dream gets restamped); an
absent last_dream counts as cooldown elapsed. -/
theorem C8_dream_cooldown :
    ∀ (now tEnd : Int) (threshold : Nat) (gen : Except String String) (st : MentalState),
      st.is_dreaming = false →
      toU64 (now - st.last_active) > threshold →
      (dreamGuard now threshold 7 { st with last_dream := some (now - 6 * 3600) } = false ∧
       dreaming_system now tEnd threshold 7 gen { st with last_dream := some (now - 6 * 3600) } =
         { st with last_dream := some (now - 6 * 3600) } ∧
       dreamGuard now threshold 7 { st with last_dream := some (now - 8 * 3600) } = true ∧
       (dreaming_system now tEnd threshold 7 gen
           { st with last_dream := some (now - 8 * 3600) }).last_dream = some tEnd ∧
       dreamCooldownOk now 7 none = true) := by
  intro now tEnd threshold gen st hdream hidle
  have h6 : Int.tdiv (now - (now - 6 * 3600)) 3600 = 6 := by
    rw [show now - (now - 6 * 3600) = 6 * 3600 by ring]
    decide
  have h8 : Int.tdiv (now - (now - 8 * 3600)) 3600 = 8 := by
    rw [show now - (now - 8 * 3600) = 8 * 3600 by ring]
    decide
  have hg6 : dreamGuard now threshold 7 { st with last_dream := some (now - 6 * 3600) } = false := by
    unfold dreamGuard dreamCooldownOk
    simp [h6]
    exact fun _ _ => by decide
  have hg8 : dreamGuard now threshold 7 { st with last_dream := some (now - 8 * 3600) } = true := by
    unfold dreamGuard dreamCooldownOk
    simp [h8, hdream, hidle]
    decide
  refine ⟨hg6, ?_, hg8, ?_, rfl⟩
  · unfold dreaming_system
    rw [hg6]
    simp
  · unfold dreaming_system
    rw [hg8]
    cases gen <;> simp

/-- Closed instance of C8 at a concrete clock: now = 100000 seconds, idle
since 99000, threshold 300 seconds. -/
theorem C8_dream_cooldown_witness :
    dreamGuard 100000 300 7 ⟨0, mkRat 7 10, false, 99000, some (100000 - 6 * 3600), 1⟩ = false ∧
    dreamGuard 100000 300 7 ⟨0, mkRat 7 10, false, 99000, some (100000 - 8 * 3600), 1⟩ = true := by
  have h := C8_dream_cooldown 100000 100001 300 (.ok "dream")
    ⟨0, mkRat 7 10, false, 99000, none, 1⟩ rfl (by decide)
  exact ⟨h.1, h.2.2.1⟩

/-- Claim C9: whenever the dreaming step activates, it terminates back in
the resting state whatever the outcome of dream generation: is_dreaming is
false again, last_dream is stamped with the completion time and the idle
timer last_active is reset to it. -/
theorem C9_dream_returns_to_awake :
    ∀ (now tEnd : Int) (threshold : Nat) (cooldown : Int) (gen : Except String String)
      (st : MentalState),
      dreamGuard now threshold cooldown st = true →
      (dreaming_system now tEnd threshold cooldown gen st).is_dreaming = false ∧
      (dreaming_system now tEnd threshold cooldown gen st).last_dream = some tEnd ∧
      (dreaming_system now tEnd threshold cooldown gen st).last_active = tEnd := by
  intro now tEnd threshold cooldown gen st hg
  unfold dreaming_system
  rw [hg]
  cases gen <;> simp

/-- Closed instance of C9 with a failing dream generation: the step still
rests the state machine. -/
theorem C9_dream_returns_to_awake_witness :
    (dreaming_system 100000 100042 300 7 (.error "llm down")
        ⟨0, mkRat 7 10, false, 99000, none, 1⟩).is_dreaming = false ∧
    (dreaming_system 100000 100042 300 7 (.error "llm down")
        ⟨0, mkRat 7 10, false, 99000, none, 1⟩).last_dream = some 100042 :=
  have h := C9_dream_returns_to_awake 100000 100042 300 7 (.error "llm down")
    ⟨0, mkRat 7 10, false, 99000, none, 1⟩ (by decide)
  ⟨h.1, h.2.1⟩

/-! Lemmas about SHA-256 and hex encoding, for the cache-key claim. -/

/-- The SHA-256 digest always serializes to 32 bytes. -/
theorem sha256_length (m : List Nat) : (sha256 m).length = 32 := rfl

/-- Sanity: the model matches the official SHA-256 test vector for the
empty message. -/
theorem sha256_matches_empty_test_vector :
    hexEncode (sha256 []) = "e3b0c44298fc1c149afbf4c8996fb92427ae41e4649b934ca495991b7852b855" := by
  decide

/-- Sanity: the model matches the official SHA-256 test vector for the
three-byte message abc. -/
theorem sha256_matches_abc_test_vector :
    hexEncode (sha256 (utf8Bytes "abc")) =
      "ba7816bf8f01cfea414140de5dae2223b00361a396177a9cb410ff61f20015ad" := by
  decide

theorem hexDigit_mem (n : Nat) : hexDigit n ∈ "0123456789abcdef".data := by
  by_cases h : n < 16
  · exact (by decide : ∀ m < 16, hexDigit m ∈ "0123456789abcdef".data) n h
  · unfold hexDigit
    rw [List.getD_eq_default]
    · decide
    · simpa using Nat.le_of_not_lt h

theorem hex_flatMap_length (bs : List Nat) :
    (bs.flatMap fun b => [hexDigit (b / 16 % 16), hexDigit (b % 16)]).length = 2 * bs.length := by
  induction bs with
  | nil => rfl
  | cons b rest ih =>
    rw [List.flatMap_cons, List.length_append, ih]
    simp only [List.length_cons, List.length_nil]
    ring

theorem hexEncode_length (bs : List Nat) : (hexEncode bs).length = 2 * bs.length := by
  rw [show (hexEncode bs).length =
      (bs.flatMap fun b => [hexDigit (b / 16 % 16), hexDigit (b % 16)]).length from rfl]
  exact hex_flatMap_length bs

theorem hex_flatMap_take :
    ∀ (k : Nat) (bs : List Nat), k ≤ bs.length →
      (bs.flatMap fun b => [hexDigit (b / 16 % 16), hexDigit (b % 16)]).take (2 * k) =
        (bs.take k).flatMap fun b => [hexDigit (b / 16 % 16), hexDigit (b % 16)] := by
  intro k
  induction k with
  | zero => simp
  | succ n ih =>
    intro bs hlen
    cases bs with
    | nil => simp at hlen
    | cons b rest =>
      rw [List.flatMap_cons, List.take_succ_cons, List.flatMap_cons]
      rw [show 2 * (n + 1) = 2 * n + 1 + 1 by ring]
      simp only [List.cons_append, List.nil_append, List.take_succ_cons]
      rw [ih rest (by simpa using hlen)]

/-- The first 16 characters of the hex encoding of a list of at least 8
bytes are the hex encoding of its first 8 bytes. -/
theorem takeChars_hexEncode (bs : List Nat) (h : 8 ≤ bs.length) :
    takeChars 16 (hexEncode bs) = hexEncode (bs.take 8) := by
  unfold takeChars hexEncode
  show String.mk ((bs.flatMap _).take 16) = _
  rw [show (16 : Nat) = 2 * 8 by rfl, hex_flatMap_take 8 bs h]

/-- Claim C6: the embedding cache key is emb: followed by the lowercase hex
encoding of the first 8 bytes of the SHA-256 digest of the UTF-8 bytes of
the text; the suffix is exactly 16 characters, each a lowercase hex digit,
and the derivation is a pure function of the text, so repeated calls yield
the identical key. -/
theorem C6_embedding_key_derivation :
    ∀ t : String,
      embedding_key t = "emb:" ++ hexEncode ((sha256 (utf8Bytes t)).take 8) ∧
      (takeChars 16 (hexEncode (sha256 (utf8Bytes t)))).length = 16 ∧
      (∀ c ∈ (takeChars 16 (hexEncode (sha256 (utf8Bytes t)))).data,
        c ∈ "0123456789abcdef".data) ∧
      (∀ s, s = t → embedding_key s = embedding_key t) := by
  intro t
  have hlen : (sha256 (utf8Bytes t)).length = 32 := sha256_length _
  have hsuffix : takeChars 16 (hexEncode (sha256 (utf8Bytes t))) =
      hexEncode ((sha256 (utf8Bytes t)).take 8) :=
    takeChars_hexEncode _ (by omega)
  refine ⟨?_, ?_, ?_, fun s hs => hs ▸ rfl⟩
  · show "emb:" ++ takeChars 16 (hexEncode (sha256 (utf8Bytes t))) = _
    rw [hsuffix]
  · rw [hsuffix, hexEncode_length, List.length_take, hlen]
    norm_num
  · intro c hc
    have hsub : c ∈ (hexEncode (sha256 (utf8Bytes t))).data := by
      have : (takeChars 16 (hexEncode (sha256 (utf8Bytes t)))).data =
          ((hexEncode (sha256 (utf8Bytes t))).data).take 16 := rfl
      rw [this] at hc
      exact List.take_subset 16 _ hc
    rw [show (hexEncode (sha256 (utf8Bytes t))).data =
        (sha256 (utf8Bytes t)).flatMap
          (fun b => [hexDigit (b / 16 % 16), hexDigit (b % 16)]) from rfl] at hsub
    rcases List.mem_flatMap.mp hsub with ⟨b, _, hcb⟩
    simp only [List.mem_cons, List.mem_singleton, List.not_mem_nil, or_false] at hcb
    rcases hcb with h1 | h1 <;> rw [h1] <;> exact hexDigit_mem _

/-- Closed instance of C6: the key for the text hello world, with its
concrete value. -/
theorem C6_embedding_key_derivation_witness :
    embedding_key "hello world" = "emb:b94d27b9934d3e08" ∧
    embedding_key "hello world" = embedding_key "hello world" :=
  ⟨by decide, (C6_embedding_key_derivation "hello world").2.2.2 "hello world" rfl⟩

/-! Lemmas for the embedding-cache round trip. -/

theorem b64Index_b64Char : ∀ n < 64, b64Index (b64Char n) = some n := by decide

theorem b64Char_ne_pad (n : Nat) : b64Char n ≠ '=' := by
  by_cases h : n < 64
  · exact (by decide : ∀ m < 64, b64Char m ≠ '=') n h
  · unfold b64Char
    rw [List.getD_eq_default]
    · decide
    · simpa [b64Alphabet] using Nat.le_of_not_lt h

theorem b64EncodeList_ne_nil (x : Nat) (xs : List Nat) : b64EncodeList (x :: xs) ≠ [] := by
  match xs with
  | [] => simp [b64EncodeList]
  | [y] => simp [b64EncodeList]
  | y :: z :: rest => simp [b64EncodeList]

/-- Standard base64 decoding is a left inverse of encoding on byte lists. -/
theorem b64_decode_encode (bs : List Nat) (hb : ∀ b ∈ bs, b < 256) :
    b64DecodeList (b64EncodeList bs) = some bs := by
  match bs with
  | [] => rfl
  | [b0] =>
    have h0 : b0 < 256 := hb b0 (by simp)
    show b64DecodeList [b64Char (b0 / 4), b64Char (b0 % 4 * 16), '=', '='] = _
    rw [show b64DecodeList [b64Char (b0 / 4), b64Char (b0 % 4 * 16), '=', '='] =
        b64DecodeGroup (b64Char (b0 / 4)) (b64Char (b0 % 4 * 16)) '=' '=' from rfl]
    unfold b64DecodeGroup
    rw [if_pos ⟨rfl, rfl⟩, b64Index_b64Char (b0 / 4) (by omega),
      b64Index_b64Char (b0 % 4 * 16) (by omega)]
    show some [b0 / 4 * 4 + b0 % 4 * 16 / 16] = some [b0]
    congr 1
    congr 1
    omega
  | [b0, b1] =>
    have h0 : b0 < 256 := hb b0 (by simp)
    have h1 : b1 < 256 := hb b1 (by simp)
    show b64DecodeList
        [b64Char (b0 / 4), b64Char (b0 % 4 * 16 + b1 / 16), b64Char (b1 % 16 * 4), '='] = _
    rw [show b64DecodeList
        [b64Char (b0 / 4), b64Char (b0 % 4 * 16 + b1 / 16), b64Char (b1 % 16 * 4), '='] =
        b64DecodeGroup (b64Char (b0 / 4)) (b64Char (b0 % 4 * 16 + b1 / 16))
          (b64Char (b1 % 16 * 4)) '=' from rfl]
    unfold b64DecodeGroup
    rw [if_neg (fun hand => b64Char_ne_pad _ hand.1), if_pos rfl,
      b64Index_b64Char (b0 / 4) (by omega),
      b64Index_b64Char (b0 % 4 * 16 + b1 / 16) (by omega),
      b64Index_b64Char (b1 % 16 * 4) (by omega)]
    show some [b0 / 4 * 4 + (b0 % 4 * 16 + b1 / 16) / 16,
      (b0 % 4 * 16 + b1 / 16) % 16 * 16 + b1 % 16 * 4 / 4] = some [b0, b1]
    congr 1
    rw [show b0 / 4 * 4 + (b0 % 4 * 16 + b1 / 16) / 16 = b0 by omega,
      show (b0 % 4 * 16 + b1 / 16) % 16 * 16 + b1 % 16 * 4 / 4 = b1 by omega]
  | b0 :: b1 :: b2 :: rest =>
    have h0 : b0 < 256 := hb b0 (by simp)
    have h1 : b1 < 256 := hb b1 (by simp)
    have h2 : b2 < 256 := hb b2 (by simp)
    have ih := b64_decode_encode rest (fun b hbmem => hb b (by simp [hbmem]))
    show b64DecodeList (b64Char (b0 / 4) :: b64Char (b0 % 4 * 16 + b1 / 16) ::
      b64Char (b1 % 16 * 4 + b2 / 64) :: b64Char (b2 % 64) :: b64EncodeList rest) = _
    rw [show b64DecodeList (b64Char (b0 / 4) :: b64Char (b0 % 4 * 16 + b1 / 16) ::
        b64Char (b1 % 16 * 4 + b2 / 64) :: b64Char (b2 % 64) :: b64EncodeList rest) =
        if (b64EncodeList rest).isEmpty then
          b64DecodeGroup (b64Char (b0 / 4)) (b64Char (b0 % 4 * 16 + b1 / 16))
            (b64Char (b1 % 16 * 4 + b2 / 64)) (b64Char (b2 % 64))
        else do
          let n0 ← b64Index (b64Char (b0 / 4))
          let n1 ← b64Index (b64Char (b0 % 4 * 16 + b1 / 16))
          let n2 ← b64Index (b64Char (b1 % 16 * 4 + b2 / 64))
          let n3 ← b64Index (b64Char (b2 % 64))
          let tail ← b64DecodeList (b64EncodeList rest)
          pure ([n0 * 4 + n1 / 16, n1 % 16 * 16 + n2 / 4, n2 % 4 * 64 + n3] ++ tail)
        from rfl]
    match hrest : rest with
    | [] =>
      rw [if_pos (show (b64EncodeList ([] : List Nat)).isEmpty = true from rfl)]
      unfold b64DecodeGroup
      rw [if_neg (fun hand => b64Char_ne_pad _ hand.1), if_neg (b64Char_ne_pad _),
        b64Index_b64Char (b0 / 4) (by omega),
        b64Index_b64Char (b0 % 4 * 16 + b1 / 16) (by omega),
        b64Index_b64Char (b1 % 16 * 4 + b2 / 64) (by omega),
        b64Index_b64Char (b2 % 64) (by omega)]
      show some [b0 / 4 * 4 + (b0 % 4 * 16 + b1 / 16) / 16,
        (b0 % 4 * 16 + b1 / 16) % 16 * 16 + (b1 % 16 * 4 + b2 / 64) / 4,
        (b1 % 16 * 4 + b2 / 64) % 4 * 64 + b2 % 64] = some [b0, b1, b2]
      rw [show b0 / 4 * 4 + (b0 % 4 * 16 + b1 / 16) / 16 = b0 by omega,
        show (b0 % 4 * 16 + b1 / 16) % 16 * 16 + (b1 % 16 * 4 + b2 / 64) / 4 = b1 by omega,
        show (b1 % 16 * 4 + b2 / 64) % 4 * 64 + b2 % 64 = b2 by omega]
    | r :: rs =>
      rw [if_neg (by simpa [List.isEmpty_iff] using b64EncodeList_ne_nil r rs),
        b64Index_b64Char (b0 / 4) (by omega),
        b64Index_b64Char (b0 % 4 * 16 + b1 / 16) (by omega),
        b64Index_b64Char (b1 % 16 * 4 + b2 / 64) (by omega),
        b64Index_b64Char (b2 % 64) (by omega), ih]
      show some ([b0 / 4 * 4 + (b0 % 4 * 16 + b1 / 16) / 16,
        (b0 % 4 * 16 + b1 / 16) % 16 * 16 + (b1 % 16 * 4 + b2 / 64) / 4,
        (b1 % 16 * 4 + b2 / 64) % 4 * 64 + b2 % 64] ++ r :: rs) = _
      rw [show b0 / 4 * 4 + (b0 % 4 * 16 + b1 / 16) / 16 = b0 by omega,
        show (b0 % 4 * 16 + b1 / 16) % 16 * 16 + (b1 % 16 * 4 + b2 / 64) / 4 = b1 by omega,
        show (b1 % 16 * 4 + b2 / 64) % 4 * 64 + b2 % 64 = b2 by omega]
      rfl

theorem chunksGo_nil (n fuel : Nat) : chunksGo n fuel ([] : List α) = [] := by
  cases fuel with
  | zero => rfl
  | succ f =>
    rcases Nat.eq_zero_or_pos n with h | h <;> simp [chunksGo, h]

theorem chunksGo_fuel (n : Nat) :
    ∀ fuel1 fuel2 (l : List α), l.length ≤ fuel1 → l.length ≤ fuel2 →
      chunksGo n fuel1 l = chunksGo n fuel2 l := by
  intro fuel1
  induction fuel1 with
  | zero =>
    intro fuel2 l h1 _
    have : l = [] := List.eq_nil_of_length_eq_zero (by omega)
    subst this
    rw [chunksGo_nil, chunksGo_nil]
  | succ f1 ih =>
    intro fuel2 l h1 h2
    cases l with
    | nil => rw [chunksGo_nil, chunksGo_nil]
    | cons x xs =>
      cases fuel2 with
      | zero => simp at h2
      | succ f2 =>
        simp only [chunksGo]
        by_cases hc : n = 0 ∨ (x :: xs).length < n
        · rw [if_pos hc, if_pos hc]
        · rw [if_neg hc, if_neg hc]
          push_neg at hc
          congr 1
          exact ih f2 _ (by simp only [List.length_drop]; omega)
            (by simp only [List.length_drop]; omega)

theorem chunksExact_cons4 (c rest : List α) (h : c.length = 4) :
    chunksExact 4 (c ++ rest) = c :: chunksExact 4 rest := by
  unfold chunksExact
  rw [List.length_append, h]
  rw [show 4 + rest.length = 3 + rest.length + 1 by omega]
  simp only [chunksGo]
  rw [if_neg (by rw [List.length_append, h]; omega)]
  rw [List.take_left' h, List.drop_left' h]
  congr 1
  exact chunksGo_fuel 4 (3 + rest.length) rest.length rest (by omega) (le_refl _)

theorem toLeBytes_lt (x : Nat) : ∀ b ∈ toLeBytes x, b < 256 := by
  intro b hbmem
  simp only [toLeBytes, List.mem_cons, List.not_mem_nil, or_false] at hbmem
  rcases hbmem with h | h | h | h <;> subst h <;> omega

theorem fromLe_toLe (x : Nat) (h : x < 2 ^ 32) : fromLeBytes (toLeBytes x) = x := by
  show x % 256 + 256 * (x / 256 % 256) + 65536 * (x / 65536 % 256) +
    16777216 * (x / 16777216 % 256) = x
  omega

theorem chunks_flatMap_toLe (v : List Nat) (hv : ∀ x ∈ v, x < 2 ^ 32) :
    (chunksExact 4 (v.flatMap toLeBytes)).map fromLeBytes = v := by
  induction v with
  | nil => rfl
  | cons x xs ih =>
    rw [List.flatMap_cons, chunksExact_cons4 _ _ (by simp [toLeBytes]), List.map_cons]
    rw [fromLe_toLe x (hv x (by simp)), ih (fun y hy => hv y (by simp [hy]))]

/-- Claim C7: the embedding-cache round trip.  After cache_embedding of a
vector (each element given by its 32-bit pattern), a get_cached_embedding
of the same text at any instant before the 7-day TTL expiry returns exactly
the stored vector: the f32 to little-endian bytes to base64 pipeline and
its decoding compose to the identity. -/
theorem kvGet_kvSet_same (store : KVStore) (now readTime : Int) (key val : String)
    (ttl : Int) (h : readTime < now + ttl) :
    kvGet (kvSet store now key val ttl) readTime key = some val := by
  unfold kvGet kvSet
  rw [List.find?_cons_of_pos _ (by simp)]
  simp only [if_pos h]

theorem C7_embedding_cache_roundtrip :
    ∀ (store : KVStore) (now readTime : Int) (t : String) (v : List Nat),
      (∀ x ∈ v, x < 2 ^ 32) → readTime < now + 604800 →
      get_cached_embedding (cache_embedding store now t v) readTime t = some v := by
  intro store now readTime t v hv httl
  have hbytes : ∀ b ∈ v.flatMap toLeBytes, b < 256 := by
    intro b hbmem
    rcases List.mem_flatMap.mp hbmem with ⟨x, _, hbx⟩
    exact toLeBytes_lt x b hbx
  unfold cache_embedding get_cached_embedding
  rw [kvGet_kvSet_same store now readTime (embedding_key t)
    (b64Encode (v.flatMap toLeBytes)) 604800 httl]
  show (match b64Decode (b64Encode (v.flatMap toLeBytes)) with
    | some bytes => some (List.map fromLeBytes (chunksExact 4 bytes))
    | none => none) = some v
  rw [show b64Decode (b64Encode (v.flatMap toLeBytes)) =
      b64DecodeList (b64EncodeList (v.flatMap toLeBytes)) from rfl]
  rw [b64_decode_encode _ hbytes]
  show some (List.map fromLeBytes (chunksExact 4 (v.flatMap toLeBytes))) = some v
  rw [chunks_flatMap_toLe v hv]

/-- Closed instance of C7: a three-element vector (bit patterns of 1.0f32,
0.0f32 and an all-ones pattern) stored at time 0 is read back intact at
time 100. -/
theorem C7_embedding_cache_roundtrip_witness :
    get_cached_embedding (cache_embedding [] 0 "hello" [1065353216, 0, 4294967295]) 100 "hello" =
      some [1065353216, 0, 4294967295] :=
  C7_embedding_cache_roundtrip [] 0 100 "hello" [1065353216, 0, 4294967295]
    (by decide) (by decide)

end Azera
